import Mathlib

/-!
Shallow embedding of the two core scripts of the `infoblox_automation_example`
repository:

* `scripts/merge-backstage-config.py` — conflict detection (`detect_conflicts`),
  strategy-based merge resolution (`resolve_conflicts`) and the per-file merge
  driver (`merge_file`);
* `scripts/manage-backstage-resources.py` — the tag-based resource registry
  (`_extract_backstage_resources`, `list_backstage_resources`,
  `find_resources_by_entity`), record typing (`_get_record_type`), cleanup
  planning (`generate_cleanup_config`, `_get_terraform_resource_name`) and
  identifier validation (`validate_backstage_id_format`).

Python `dict`s (insertion ordered, unique keys) are modelled as association
lists `List (String × α)`; `dict` membership/lookup/assignment are `keys`,
`find?` and `dinsert` below.  Optional string tags (`ea_tags.get(...)`,
returning `None` when absent) are `Option String`; Python truthiness of such a
value (`None` and `""` are falsy) is `strTruthy`.  Python string comparison
(`>=`, lexicographic by code point) is `strGe`.
-/

namespace InfobloxAutomation

/-! ## Association-list model of Python dicts -/

/-- The keys of a dict, in insertion order (`list(d.keys())`). -/
def keys {α : Type} (d : List (String × α)) : List String :=
  d.map Prod.fst

/-- Dict lookup: `d.get(k)` / `d[k]`.  Returns the first binding of `k`;
for lists built by `dinsert` (as every Python dict is) keys are unique. -/
def find? {α : Type} (d : List (String × α)) (k : String) : Option α :=
  (List.find? (fun p => p.1 == k) d).map Prod.snd

/-- Replace the value bound to an existing key, keeping its position
(the behaviour of `d[k] = v` when `k in d`). -/
def setKey {α : Type} (d : List (String × α)) (k : String) (v : α) :
    List (String × α) :=
  d.map (fun p => if p.1 == k then (k, v) else p)

/-- Python dict assignment `d[k] = v`: update in place when the key exists,
append otherwise. -/
def dinsert {α : Type} (d : List (String × α)) (k : String) (v : α) :
    List (String × α) :=
  if (find? d k).isSome then setKey d k v else d ++ [(k, v)]

/-! ## Python string primitives -/

/-- Python truthiness of an optional string tag: `None` and `""` are falsy. -/
def strTruthy : Option String → Bool
  | none => false
  | some s => !s.isEmpty

/-- Python `a < b` on strings: lexicographic comparison by code point. -/
def charsLt : List Char → List Char → Bool
  | [], [] => false
  | [], _ :: _ => true
  | _ :: _, [] => false
  | a :: as, b :: bs => a < b || (a == b && charsLt as bs)

/-- Python `a >= b` on strings (`a >= b` iff `not (a < b)`). -/
def strGe (a b : String) : Bool :=
  !(charsLt a.data b.data)

/-- Whether `needle` is a prefix of `hay` (char-list level). -/
def startsWithChars : List Char → List Char → Bool
  | [], _ => true
  | _ :: _, [] => false
  | a :: as, b :: bs => a == b && startsWithChars as bs

/-- Whether `needle` occurs as a contiguous segment of `hay` (char-list level). -/
def containsSegment (needle : List Char) : List Char → Bool
  | [] => needle.isEmpty
  | h :: t => startsWithChars needle (h :: t) || containsSegment needle t

/-- Python substring containment `needle in hay`. -/
def strContains (hay needle : String) : Bool :=
  containsSegment needle.data hay.data

/-! ## Data model -/

/-- The reserved `ea_tags` sub-mapping of a resource entry.  Each field models
`ea_tags.get('<Name>')`: `none` when the tag is absent. -/
structure EaTags where
  CreatedBy : Option String := none
  BackstageId : Option String := none
  BackstageEntity : Option String := none
  CreatedAt : Option String := none
  Owner : Option String := none
deriving DecidableEq

/-- A resource entry (one top-level YAML value).  Record fields are modelled
by what the scripts observe of them: key presence for `ip_addr`, `fqdn`,
`alias`, `canonical`, `network` (`'x' in config`), and the truthiness of
`config.get('allocate_ip')`. -/
structure ResourceEntry where
  ea_tags : EaTags := {}
  hasIpAddr : Bool := false
  hasFqdn : Bool := false
  allocate_ip : Bool := false
  hasAlias : Bool := false
  hasCanonical : Bool := false
  hasNetwork : Bool := false
deriving DecidableEq

/-- A configuration document: one YAML file's ordered mapping from resource
key to entry. -/
abbrev Doc := List (String × ResourceEntry)

/-! ## merge-backstage-config.py: conflict detection -/

/-- A detected merge conflict.  The source emits formatted strings; this
carries the same data (kind, key and the identifiers interpolated into the
message, with `None` rendered as `""`). -/
inductive Conflict where
  | identifierMismatch (key : String) (eid nid : String)
  | manualOverwriteAttempt (key : String) (nid : String)
deriving DecidableEq

/-- The resource key a conflict was reported for. -/
def conflictKey : Conflict → String
  | .identifierMismatch k _ _ => k
  | .manualOverwriteAttempt k _ => k

/-- One iteration of the `detect_conflicts` loop body for `(key, new_value)`. -/
def detectStep (existing : Doc) (conflicts : List Conflict)
    (kv : String × ResourceEntry) : List Conflict :=
  match find? existing kv.1 with
  | some existing_value =>
    let existing_backstage_id := existing_value.ea_tags.BackstageId
    let new_backstage_id := kv.2.ea_tags.BackstageId
    if strTruthy existing_backstage_id && strTruthy new_backstage_id &&
        existing_backstage_id != new_backstage_id then
      conflicts ++ [.identifierMismatch kv.1 (existing_backstage_id.getD "")
        (new_backstage_id.getD "")]
    else if !(strTruthy existing_backstage_id) && strTruthy new_backstage_id then
      conflicts ++ [.manualOverwriteAttempt kv.1 (new_backstage_id.getD "")]
    else conflicts
  | none => conflicts

/-- Translation of `BackstageMerger.detect_conflicts(existing, new)`. -/
def detect_conflicts (existing new : Doc) : List Conflict :=
  new.foldl (detectStep existing) []

/-! ## merge-backstage-config.py: merge resolution -/

/-- One iteration of the `resolve_conflicts` loop body for
`(key, new_value)`. -/
def resolveStep (existing : Doc) (strategy : String) (merged : Doc)
    (kv : String × ResourceEntry) : Doc :=
  match find? existing kv.1 with
  | some existing_value =>
    let existing_backstage_id := existing_value.ea_tags.BackstageId
    let new_backstage_id := kv.2.ea_tags.BackstageId
    if strategy == "backstage-wins" then
      if strTruthy new_backstage_id then dinsert merged kv.1 kv.2 else merged
    else if strategy == "manual-protected" then
      if !(strTruthy existing_backstage_id) && strTruthy new_backstage_id then
        merged
      else dinsert merged kv.1 kv.2
    else if strategy == "timestamp-wins" then
      let existing_time := existing_value.ea_tags.CreatedAt.getD "1970-01-01"
      let new_time := kv.2.ea_tags.CreatedAt.getD "1970-01-01"
      if strGe new_time existing_time then dinsert merged kv.1 kv.2 else merged
    else merged
  | none => dinsert merged kv.1 kv.2

/-- Translation of `BackstageMerger.resolve_conflicts(existing, new, strategy)`:
start from a copy of `existing`, fold the per-key loop body over `new`. -/
def resolve_conflicts (existing new : Doc)
    (strategy : String := "backstage-wins") : Doc :=
  new.foldl (resolveStep existing strategy) existing

/-! ## merge-backstage-config.py: per-file merge driver -/

/-- Outcome of `BackstageMerger.merge_file`, restricted to its decision logic:
the returned boolean, and the document written to the target file
(`none` when the method returns without saving). -/
structure MergeFileResult where
  success : Bool
  saved : Option Doc
deriving DecidableEq

/-- Translation of `BackstageMerger.merge_file` on already-loaded data: empty incoming data
aborts; detected conflicts abort (before resolution and saving) exactly under
the `fail-on-conflict` strategy; otherwise the resolved document is saved. -/
def merge_file (existing_data backstage_data : Doc) (strategy : String) :
    MergeFileResult :=
  if backstage_data.isEmpty then
    { success := false, saved := none }
  else
    let conflicts := detect_conflicts existing_data backstage_data
    if !conflicts.isEmpty && strategy == "fail-on-conflict" then
      { success := false, saved := none }
    else
      { success := true,
        saved := some (resolve_conflicts existing_data backstage_data strategy) }

/-! ## manage-backstage-resources.py: registry -/

/-- One value of `self.backstage_resources`, as built by
`_extract_backstage_resources`. -/
structure RegistryRecord where
  resource_name : String
  entity_name : Option String
  source_file : String
  config : ResourceEntry
  created_at : Option String
  owner : Option String
deriving DecidableEq

/-- The registry `self.backstage_resources`: a dict keyed by `BackstageId`. -/
abbrev Registry := List (String × RegistryRecord)

/-- Translation of `InfobloxResourceManager._extract_backstage_resources(data, source_file)`:
insert a record for every entry with `CreatedBy == 'backstage'` and a truthy
`BackstageId` (dict assignment, so a repeated identifier is last-write-wins). -/
def _extract_backstage_resources (reg : Registry) (data : Doc)
    (source_file : String) : Registry :=
  data.foldl (fun reg kv =>
    let ea_tags := kv.2.ea_tags
    if ea_tags.CreatedBy == some "backstage" then
      if strTruthy ea_tags.BackstageId then
        dinsert reg (ea_tags.BackstageId.getD "")
          { resource_name := kv.1
            entity_name := ea_tags.BackstageEntity
            source_file := source_file
            config := kv.2
            created_at := ea_tags.CreatedAt
            owner := ea_tags.Owner }
      else reg
    else reg) reg

/-- Translation of `InfobloxResourceManager._load_configurations` over already-loaded
documents: scan every `(category file, document)` pair in order. -/
def build_registry (docs : List (String × Doc)) : Registry :=
  docs.foldl (fun reg p => _extract_backstage_resources reg p.2 p.1) []

/-- Translation of `InfobloxResourceManager._get_record_type(config)`. -/
def _get_record_type (config : ResourceEntry) : String :=
  if config.hasIpAddr && config.hasFqdn then
    if config.allocate_ip then "HOST" else "A"
  else if config.hasAlias && config.hasCanonical then "CNAME"
  else if config.hasNetwork then "NETWORK"
  else "UNKNOWN"

/-- One element of the list returned by `list_backstage_resources`. -/
structure ListedResource where
  backstage_id : String
  entity_name : Option String
  resource_name : String
  source_file : String
  owner : Option String
  created_at : Option String
  record_type : String
deriving DecidableEq

/-- The projection appended for one registry item inside
`list_backstage_resources`. -/
def listedOf (p : String × RegistryRecord) : ListedResource :=
  { backstage_id := p.1
    entity_name := p.2.entity_name
    resource_name := p.2.resource_name
    source_file := p.2.source_file
    owner := p.2.owner
    created_at := p.2.created_at
    record_type := _get_record_type p.2.config }

/-- The `continue` guard of the `list_backstage_resources` loop.  The source
tests `entity_filter and entity_filter not in resource_info.get('entity_name',
'')`; the record dict always carries the `entity_name` key (possibly `None`),
so the `.get` default never applies, and a truthy filter tested against a
stored `None` raises `TypeError`.  `some b` is the normal outcome (skip iff
`b`); `none` is that raised `TypeError`. -/
def listSkip? (entity_filter : Option String) (r : RegistryRecord) :
    Option Bool :=
  match entity_filter with
  | none => some false
  | some f =>
    if f.isEmpty then some false
    else
      match r.entity_name with
      | none => none
      | some e => some (!(strContains e f))

/-- The sort key of `list_backstage_resources`: `x['created_at'] or ''`. -/
def listSortKey (x : ListedResource) : String :=
  x.created_at.getD ""

/-- The comparison used to model Python's ascending `sorted(...)`. -/
def listedLe (a b : ListedResource) : Prop :=
  charsLt (listSortKey b).data (listSortKey a).data = false

instance : DecidableRel listedLe :=
  fun a b => inferInstanceAs
    (Decidable (charsLt (listSortKey b).data (listSortKey a).data = false))

/-- The `list_backstage_resources` loop over the remaining registry items:
append the projection of every non-skipped record, propagating a raised
`TypeError` as `none`. -/
def listLoop (entity_filter : Option String)
    (resources : List ListedResource) :
    Registry → Option (List ListedResource)
  | [] => some resources
  | p :: t =>
    match listSkip? entity_filter p.2 with
    | none => none
    | some true => listLoop entity_filter resources t
    | some false => listLoop entity_filter (resources ++ [listedOf p]) t

/-- The filtered projection built by the `list_backstage_resources` loop,
before sorting; `none` when the loop raises. -/
def listRaw (reg : Registry) (entity_filter : Option String) :
    Option (List ListedResource) :=
  listLoop entity_filter [] reg

/-- Translation of `InfobloxResourceManager.list_backstage_resources(entity_filter)`:
filter, project, then sort ascending by `created_at or ''`.  The result is
`none` exactly when the source raises `TypeError` (a truthy filter reaching
a record whose stored entity name is `None`). -/
def list_backstage_resources (reg : Registry)
    (entity_filter : Option String := none) :
    Option (List ListedResource) :=
  (listRaw reg entity_filter).map (List.insertionSort listedLe)

/-- Translation of `InfobloxResourceManager.find_resources_by_entity(entity_name)`:
exact-equality filter over the unfiltered listing (which never raises, since
no filter is passed down). -/
def find_resources_by_entity (reg : Registry) (entity_name : String) :
    Option (List ListedResource) :=
  (list_backstage_resources reg none).map
    (fun resources => resources.filter
      (fun resource => resource.entity_name == some entity_name))

/-! ## manage-backstage-resources.py: cleanup planning -/

/-- Translation of `InfobloxResourceManager._get_terraform_resource_name(source_file,
resource_name)`: fixed category table (default `unknown`), then
`f"{resource_type}.{resource_name}"`. -/
def _get_terraform_resource_name (source_file resource_name : String) :
    String :=
  let resource_type :=
    if source_file == "a-records.yaml" then "infoblox_a_record"
    else if source_file == "cname-records.yaml" then "infoblox_cname_record"
    else if source_file == "host-records.yaml" then "infoblox_host_record"
    else if source_file == "networks.yaml" then "infoblox_network"
    else if source_file == "dns-zones.yaml" then "infoblox_zone_auth"
    else "unknown"
  resource_type ++ "." ++ resource_name

/-- One element of the `resources_to_remove` list built by
`generate_cleanup_config`. -/
structure CleanupItem where
  backstage_id : String
  resource_name : String
  source_file : String
  terraform_resource : String
deriving DecidableEq

/-- The plan item emitted for one identifier found in the registry. -/
def cleanupItemOf (backstage_id : String) (resource_info : RegistryRecord) :
    CleanupItem :=
  { backstage_id := backstage_id
    resource_name := resource_info.resource_name
    source_file := resource_info.source_file
    terraform_resource := _get_terraform_resource_name
      resource_info.source_file resource_info.resource_name }

/-- Translation of `InfobloxResourceManager.generate_cleanup_config(backstage_ids)`,
restricted to its `resources_to_remove` list (the `terraform_commands` list in
the source is initialised empty and never appended to). -/
def generate_cleanup_config (reg : Registry) (backstage_ids : List String) :
    List CleanupItem :=
  backstage_ids.foldl (fun acc backstage_id =>
    match find? reg backstage_id with
    | some resource_info => acc ++ [cleanupItemOf backstage_id resource_info]
    | none => acc) []

/-! ## manage-backstage-resources.py: identifier validation

The source is `bool(re.match(r'^[a-z0-9-]+-(?:dev|staging|prod)-\d{14}$',
backstage_id))`.  The translation below implements the language of that
pattern under Python `re` semantics for text patterns: the match is anchored
at the start by `re.match`; the final `$` accepts either the end of the
string or a position just before a single trailing newline; and `\d` matches
any Unicode decimal digit (category Nd), not only ASCII `0-9`. -/

/-- The character class `[a-z0-9-]` (regex ranges are code-point ranges, so
`a-z` and `0-9` are the ASCII runs). -/
def entityChar (c : Char) : Bool :=
  ('a' ≤ c && c ≤ 'z') || c.isDigit || c == '-'

/-- The code-point ranges of the Unicode decimal digits (category Nd),
as matched by CPython's `re` for `\d` (Unicode 14.0; the first range is
ASCII `0-9`). -/
def ndRanges : List (Nat × Nat) :=
  [(0x30, 0x39), (0x660, 0x669), (0x6F0, 0x6F9), (0x7C0, 0x7C9),
   (0x966, 0x96F), (0x9E6, 0x9EF), (0xA66, 0xA6F), (0xAE6, 0xAEF),
   (0xB66, 0xB6F), (0xBE6, 0xBEF), (0xC66, 0xC6F), (0xCE6, 0xCEF),
   (0xD66, 0xD6F), (0xDE6, 0xDEF), (0xE50, 0xE59), (0xED0, 0xED9),
   (0xF20, 0xF29), (0x1040, 0x1049), (0x1090, 0x1099), (0x17E0, 0x17E9),
   (0x1810, 0x1819), (0x1946, 0x194F), (0x19D0, 0x19D9), (0x1A80, 0x1A89),
   (0x1A90, 0x1A99), (0x1B50, 0x1B59), (0x1BB0, 0x1BB9), (0x1C40, 0x1C49),
   (0x1C50, 0x1C59), (0xA620, 0xA629), (0xA8D0, 0xA8D9), (0xA900, 0xA909),
   (0xA9D0, 0xA9D9), (0xA9F0, 0xA9F9), (0xAA50, 0xAA59), (0xABF0, 0xABF9),
   (0xFF10, 0xFF19), (0x104A0, 0x104A9), (0x10D30, 0x10D39),
   (0x11066, 0x1106F), (0x110F0, 0x110F9), (0x11136, 0x1113F),
   (0x111D0, 0x111D9), (0x112F0, 0x112F9), (0x11450, 0x11459),
   (0x114D0, 0x114D9), (0x11650, 0x11659), (0x116C0, 0x116C9),
   (0x11730, 0x11739), (0x118E0, 0x118E9), (0x11950, 0x11959),
   (0x11C50, 0x11C59), (0x11D50, 0x11D59), (0x11DA0, 0x11DA9),
   (0x16A60, 0x16A69), (0x16AC0, 0x16AC9), (0x16B50, 0x16B59),
   (0x1D7CE, 0x1D7FF), (0x1E140, 0x1E149), (0x1E2F0, 0x1E2F9),
   (0x1E950, 0x1E959), (0x1FBF0, 0x1FBF9)]

/-- Python's `\d` for text patterns: membership in one of the Unicode Nd
code-point ranges. -/
def isPyDigit (c : Char) : Bool :=
  ndRanges.any (fun r => decide (r.1 ≤ c.toNat) && decide (c.toNat ≤ r.2))

/-- The three environment literals of the pattern. -/
def idEnvs : List (List Char) :=
  ["dev".data, "staging".data, "prod".data]

/-- Match `[a-z0-9-]+ '-' env '-' digit{14}` against the whole of `l`, for
one fixed `env` alternative and an abstract digit class (instantiated with
`isPyDigit` for the source's `\d` and with `Char.isDigit` for the claimed
ASCII grammar).  The suffix `-env-digit{14}` has fixed length
`env.length + 16`, so the split is read off the right end. -/
def matchEnvTail (digit : Char → Bool) (l : List Char) (env : List Char) :
    Bool :=
  decide (env.length + 17 ≤ l.length) &&
  (l.take (l.length - (env.length + 16))).all entityChar &&
  ((l.drop (l.length - (env.length + 16))).take (env.length + 2) ==
    '-' :: (env ++ ['-'])) &&
  (l.drop (l.length - 14)).all digit

/-- Match `[a-z0-9-]+-(?:dev|staging|prod)-digit{14}` against the whole of
`l`. -/
def bodyMatch (digit : Char → Bool) (l : List Char) : Bool :=
  idEnvs.any (matchEnvTail digit l)

/-- Translation of `InfobloxResourceManager.validate_backstage_id_format(backstage_id)`:
the anchored pattern — with `\d` the Unicode Nd class — matches the whole
string, or (Python `$` semantics) the whole string minus a single trailing
newline. -/
def validate_backstage_id_format (backstage_id : String) : Bool :=
  bodyMatch isPyDigit backstage_id.data ||
    (backstage_id.data.getLast? == some '\n' &&
      bodyMatch isPyDigit backstage_id.data.dropLast)

/-! ## Lemmas about the association-list dict model -/

theorem keys_nil {α : Type} : keys ([] : List (String × α)) = [] := rfl

theorem keys_cons {α : Type} (p : String × α) (d : List (String × α)) :
    keys (p :: d) = p.1 :: keys d := rfl

theorem keys_append {α : Type} (d1 d2 : List (String × α)) :
    keys (d1 ++ d2) = keys d1 ++ keys d2 :=
  List.map_append _ _ _

theorem find?_cons {α : Type} (p : String × α) (d : List (String × α))
    (k : String) :
    find? (p :: d) k = if p.1 == k then some p.2 else find? d k := by
  cases h : p.1 == k
  · simp [find?, List.find?, h]
  · simp [find?, List.find?, h]

theorem find?_isSome_iff {α : Type} (d : List (String × α)) (k : String) :
    (find? d k).isSome ↔ k ∈ keys d := by
  induction d with
  | nil => simp [find?, keys]
  | cons p t ih =>
    rw [find?_cons, keys_cons]
    by_cases hp : p.1 = k
    · simp [hp]
    · rw [if_neg (by simpa using hp), List.mem_cons]
      constructor
      · intro hs
        exact Or.inr (ih.mp hs)
      · rintro (h' | h')
        · exact absurd h'.symm hp
        · exact ih.mpr h'

theorem find?_eq_none_iff {α : Type} (d : List (String × α)) (k : String) :
    find? d k = none ↔ k ∉ keys d := by
  rw [← find?_isSome_iff, Option.not_isSome_iff_eq_none]

theorem mem_keys_of_find?_eq_some {α : Type} {d : List (String × α)}
    {k : String} {v : α} (h : find? d k = some v) : k ∈ keys d := by
  rw [← find?_isSome_iff, h]
  rfl

theorem keys_setKey {α : Type} (d : List (String × α)) (k : String) (v : α) :
    keys (setKey d k v) = keys d := by
  induction d with
  | nil => rfl
  | cons p t ih =>
    simp only [setKey, List.map_cons, keys_cons] at ih ⊢
    by_cases hp : p.1 = k
    · simpa [hp] using ih
    · simpa [hp] using ih

theorem find?_setKey_ne {α : Type} (d : List (String × α)) {k' k : String}
    (v : α) (h : k' ≠ k) : find? (setKey d k' v) k = find? d k := by
  induction d with
  | nil => rfl
  | cons p t ih =>
    by_cases hp : p.1 = k'
    · have h1 : setKey (p :: t) k' v = (k', v) :: setKey t k' v := by
        simp [setKey, hp]
      rw [h1, find?_cons, find?_cons, if_neg (by simpa using h),
        if_neg (by simp [hp, h]), ih]
    · have h1 : setKey (p :: t) k' v = p :: setKey t k' v := by
        simp [setKey, hp]
      rw [h1, find?_cons, find?_cons, ih]

theorem find?_setKey_self {α : Type} (d : List (String × α)) {k : String}
    (v : α) (h : k ∈ keys d) : find? (setKey d k v) k = some v := by
  induction d with
  | nil => simp [keys] at h
  | cons p t ih =>
    by_cases hp : p.1 = k
    · have h1 : setKey (p :: t) k v = (k, v) :: setKey t k v := by
        simp [setKey, hp]
      rw [h1, find?_cons, if_pos (by simp)]
    · have ht : k ∈ keys t := by
        rcases (by simpa [keys_cons, List.mem_cons] using h :
            k = p.1 ∨ k ∈ keys t) with h' | h'
        · exact absurd h'.symm hp
        · exact h'
      have h1 : setKey (p :: t) k v = p :: setKey t k v := by
        simp [setKey, hp]
      rw [h1, find?_cons, if_neg (by simpa using hp), ih ht]

theorem find?_snoc {α : Type} (d : List (String × α)) (k' k : String)
    (v : α) :
    find? (d ++ [(k', v)]) k =
      if (find? d k).isSome then find? d k
      else if k' == k then some v else none := by
  induction d with
  | nil =>
    by_cases hk : k' = k
    · subst hk
      simp [find?, List.find?]
    · have hb : (k' == k) = false := by simpa using hk
      simp [find?, List.find?, hb]
  | cons p t ih =>
    by_cases hp : p.1 = k
    · have hb : (p.1 == k) = true := by simpa using hp
      rw [List.cons_append, find?_cons, find?_cons, hb]
      simp
    · have hb : (p.1 == k) = false := by simpa using hp
      rw [List.cons_append, find?_cons, find?_cons, hb]
      simp [ih]

theorem find?_dinsert {α : Type} (d : List (String × α)) (k' k : String)
    (v : α) :
    find? (dinsert d k' v) k = if k' = k then some v else find? d k := by
  unfold dinsert
  by_cases hs : (find? d k').isSome
  · rw [if_pos hs]
    by_cases hk : k' = k
    · subst hk
      exact (find?_setKey_self d v ((find?_isSome_iff d k').mp hs)).trans
        (by simp)
    · simp [find?_setKey_ne d v hk, hk]
  · rw [if_neg hs, find?_snoc]
    by_cases hk : k' = k
    · subst hk
      simp [Option.not_isSome_iff_eq_none.mp hs]
    · by_cases h2 : (find? d k).isSome <;> simp [h2, hk] <;>
        simp [Option.not_isSome_iff_eq_none.mp h2]

theorem find?_dinsert_self {α : Type} (d : List (String × α)) (k : String)
    (v : α) : find? (dinsert d k v) k = some v := by
  simp [find?_dinsert]

theorem mem_keys_dinsert {α : Type} (d : List (String × α)) (k' k : String)
    (v : α) : k ∈ keys (dinsert d k' v) ↔ k ∈ keys d ∨ k = k' := by
  unfold dinsert
  by_cases hs : (find? d k').isSome
  · rw [if_pos hs]
    rw [keys_setKey]
    constructor
    · exact Or.inl
    · rintro (h | rfl)
      · exact h
      · exact (find?_isSome_iff d k).mp hs
  · rw [if_neg hs]
    simp [keys, eq_comm]

theorem find?_eq_some_split {α : Type} {d : List (String × α)} {k : String}
    {v : α} (h : find? d k = some v) :
    ∃ l1 l2, d = l1 ++ (k, v) :: l2 ∧ k ∉ keys l1 := by
  induction d with
  | nil => simp [find?] at h
  | cons p t ih =>
    rw [find?_cons] at h
    by_cases hp : p.1 = k
    · rw [if_pos (by simpa using hp)] at h
      have hv : p.2 = v := Option.some.inj h
      refine ⟨[], t, ?_, by simp [keys_nil]⟩
      obtain ⟨p1, p2⟩ := p
      simp only at hp hv
      rw [hp, hv]
      rfl
    · rw [if_neg (by simpa using hp)] at h
      obtain ⟨l1, l2, rfl, hk⟩ := ih h
      refine ⟨p :: l1, l2, rfl, ?_⟩
      intro hmem
      rcases (by simpa [keys_cons, List.mem_cons] using hmem :
          k = p.1 ∨ k ∈ keys l1) with h' | h'
      · exact hp h'.symm
      · exact hk h'

theorem find?_split_of_nodup {α : Type} {d : List (String × α)} {k : String}
    {v : α} (hnd : (keys d).Nodup) (h : find? d k = some v) :
    ∃ l1 l2, d = l1 ++ (k, v) :: l2 ∧ k ∉ keys l1 ∧ k ∉ keys l2 := by
  obtain ⟨l1, l2, rfl, h1⟩ := find?_eq_some_split h
  refine ⟨l1, l2, rfl, h1, ?_⟩
  have hk : keys (l1 ++ (k, v) :: l2) = keys l1 ++ k :: keys l2 := by
    simp [keys]
  rw [hk] at hnd
  have hsub : (k :: keys l2).Sublist (keys l1 ++ k :: keys l2) :=
    List.sublist_append_right _ _
  exact (List.nodup_cons.mp (List.Nodup.sublist hsub hnd)).1

/-! ## Lemmas about `resolve_conflicts` -/

theorem resolveStep_some (e : Doc) (s : String) (acc : Doc)
    (kv : String × ResourceEntry) (ev : ResourceEntry)
    (hf : find? e kv.1 = some ev) :
    resolveStep e s acc kv =
      if s == "backstage-wins" then
        if strTruthy kv.2.ea_tags.BackstageId then dinsert acc kv.1 kv.2
        else acc
      else if s == "manual-protected" then
        if !(strTruthy ev.ea_tags.BackstageId) &&
            strTruthy kv.2.ea_tags.BackstageId then acc
        else dinsert acc kv.1 kv.2
      else if s == "timestamp-wins" then
        if strGe (kv.2.ea_tags.CreatedAt.getD "1970-01-01")
            (ev.ea_tags.CreatedAt.getD "1970-01-01") then dinsert acc kv.1 kv.2
        else acc
      else acc := by
  unfold resolveStep
  rw [hf]

theorem resolveStep_none (e : Doc) (s : String) (acc : Doc)
    (kv : String × ResourceEntry) (hf : find? e kv.1 = none) :
    resolveStep e s acc kv = dinsert acc kv.1 kv.2 := by
  unfold resolveStep
  rw [hf]

theorem resolveStep_eq_or (e : Doc) (s : String) (acc : Doc)
    (kv : String × ResourceEntry) :
    resolveStep e s acc kv = acc ∨
      resolveStep e s acc kv = dinsert acc kv.1 kv.2 := by
  cases hf : find? e kv.1 with
  | none => exact Or.inr (resolveStep_none e s acc kv hf)
  | some ev =>
    rw [resolveStep_some e s acc kv ev hf]
    split_ifs <;> first | exact Or.inl rfl | exact Or.inr rfl

theorem foldl_resolveStep_not_mem (e : Doc) (s : String) (rest : Doc)
    (acc : Doc) (k : String) (h : k ∉ keys rest) :
    find? (rest.foldl (resolveStep e s) acc) k = find? acc k := by
  induction rest generalizing acc with
  | nil => rfl
  | cons kv t ih =>
    have hk1 : kv.1 ≠ k := fun he => h (by simp [keys_cons, he])
    have hk2 : k ∉ keys t := fun ht => h (by simp [keys_cons, ht])
    rw [List.foldl_cons, ih _ hk2]
    rcases resolveStep_eq_or e s acc kv with h' | h'
    · rw [h']
    · rw [h', find?_dinsert, if_neg hk1]

theorem resolve_find?_of_mem (e n : Doc) (s : String) (k : String)
    (ev nv : ResourceEntry) (r : Option ResourceEntry)
    (hN : (keys n).Nodup) (he : find? e k = some ev)
    (hn : find? n k = some nv)
    (hstep : ∀ acc : Doc, find? acc k = some ev →
      find? (resolveStep e s acc (k, nv)) k = r) :
    find? (resolve_conflicts e n s) k = r := by
  obtain ⟨l1, l2, hsplit, h1, h2⟩ := find?_split_of_nodup hN hn
  subst hsplit
  simp only [resolve_conflicts]
  rw [List.foldl_append, List.foldl_cons,
    foldl_resolveStep_not_mem _ _ _ _ _ h2]
  exact hstep _ ((foldl_resolveStep_not_mem _ _ _ _ _ h1).trans he)

/-! ## Claim theorems: merge resolution strategies -/

/-- C1.  For every existing document, incoming document, and key present in
both, `resolve_conflicts` under strategy `backstage-wins` replaces the
existing entry with the incoming entry exactly when the incoming entry's
`BackstageId` is non-empty; when the incoming entry has no (or an empty)
`BackstageId`, the existing entry is kept unchanged. -/
theorem backstage_wins_replaces_iff_incoming_id (existing new : Doc)
    (k : String) (ev nv : ResourceEntry) (hN : (keys new).Nodup)
    (he : find? existing k = some ev) (hn : find? new k = some nv) :
    find? (resolve_conflicts existing new "backstage-wins") k =
      if strTruthy nv.ea_tags.BackstageId then some nv else some ev := by
  apply resolve_find?_of_mem existing new _ k ev nv _ hN he hn
  intro acc hacc
  rw [resolveStep_some existing _ acc (k, nv) ev he]
  rw [if_pos (by rfl)]
  by_cases hb : strTruthy nv.ea_tags.BackstageId
  · rw [if_pos hb, if_pos hb]
    exact find?_dinsert_self acc k nv
  · rw [if_neg hb, if_neg hb]
    exact hacc

/-- A concrete manually-owned entry, used by witnesses. -/
def wManual : ResourceEntry := { ea_tags := { CreatedAt := some "2024-01-01" } }

/-- A concrete automation-owned entry, used by witnesses. -/
def wAuto : ResourceEntry :=
  { ea_tags := { BackstageId := some "app-dev-20250909120000" } }

/-- A concrete automation-owned entry with an old identifier, used by
witnesses. -/
def wOld : ResourceEntry :=
  { ea_tags := { BackstageId := some "a-dev-20240101000000" } }

/-- A concrete entry with only a `CreatedAt` tag, used by witnesses. -/
def wNew : ResourceEntry := { ea_tags := { CreatedAt := some "2025-09-09" } }

/-- C1 witness: a shared key whose incoming entry is automation-owned is
replaced under `backstage-wins`. -/
theorem backstage_wins_witness :
    find? (resolve_conflicts [("app", wManual)] [("app", wAuto)]
        "backstage-wins") "app" =
      if strTruthy wAuto.ea_tags.BackstageId then some wAuto
      else some wManual :=
  backstage_wins_replaces_iff_incoming_id [("app", wManual)] [("app", wAuto)]
    "app" wManual wAuto (by decide) (by decide) (by decide)

/-- C2.  For every existing document, incoming document, and key present in
both, `resolve_conflicts` under strategy `manual-protected` keeps the
existing entry exactly when the existing entry has no `BackstageId` and the
incoming one has a non-empty one; in every other ownership combination the
incoming entry replaces the existing one. -/
theorem manual_protected_keeps_iff_manual_vs_auto (existing new : Doc)
    (k : String) (ev nv : ResourceEntry) (hN : (keys new).Nodup)
    (he : find? existing k = some ev) (hn : find? new k = some nv) :
    find? (resolve_conflicts existing new "manual-protected") k =
      if !(strTruthy ev.ea_tags.BackstageId) &&
          strTruthy nv.ea_tags.BackstageId then some ev
      else some nv := by
  apply resolve_find?_of_mem existing new _ k ev nv _ hN he hn
  intro acc hacc
  rw [resolveStep_some existing _ acc (k, nv) ev he]
  rw [if_neg (by decide), if_pos (by rfl)]
  by_cases hb : !(strTruthy ev.ea_tags.BackstageId) &&
      strTruthy nv.ea_tags.BackstageId
  · rw [if_pos hb, if_pos hb]
    exact hacc
  · rw [if_neg hb, if_neg hb]
    exact find?_dinsert_self acc k nv

/-- C2 witness: an existing manual entry survives an incoming
automation-owned entry under `manual-protected`. -/
theorem manual_protected_witness :
    find? (resolve_conflicts [("app", wManual)] [("app", wAuto)]
        "manual-protected") "app" =
      if !(strTruthy wManual.ea_tags.BackstageId) &&
          strTruthy wAuto.ea_tags.BackstageId then some wManual
      else some wAuto :=
  manual_protected_keeps_iff_manual_vs_auto [("app", wManual)]
    [("app", wAuto)] "app" wManual wAuto (by decide) (by decide) (by decide)

/-- C3.  For every existing document, incoming document, and key present in
both, `resolve_conflicts` under strategy `timestamp-wins` replaces the
existing entry with the incoming one iff the incoming entry's `CreatedAt`
string is lexicographically greater than or equal to the existing one's,
an absent tag being treated as `"1970-01-01"`. -/
theorem timestamp_wins_replaces_iff_ge (existing new : Doc)
    (k : String) (ev nv : ResourceEntry) (hN : (keys new).Nodup)
    (he : find? existing k = some ev) (hn : find? new k = some nv) :
    find? (resolve_conflicts existing new "timestamp-wins") k =
      if strGe (nv.ea_tags.CreatedAt.getD "1970-01-01")
          (ev.ea_tags.CreatedAt.getD "1970-01-01") then some nv
      else some ev := by
  apply resolve_find?_of_mem existing new _ k ev nv _ hN he hn
  intro acc hacc
  rw [resolveStep_some existing _ acc (k, nv) ev he]
  rw [if_neg (by decide), if_neg (by decide), if_pos (by rfl)]
  by_cases hb : strGe (nv.ea_tags.CreatedAt.getD "1970-01-01")
      (ev.ea_tags.CreatedAt.getD "1970-01-01")
  · rw [if_pos hb, if_pos hb]
    exact find?_dinsert_self acc k nv
  · rw [if_neg hb, if_neg hb]
    exact hacc

/-- C3 witness: an incoming entry with a newer `CreatedAt` replaces the
existing entry under `timestamp-wins`, the existing entry having no
`CreatedAt` (so comparing as `"1970-01-01"`). -/
theorem timestamp_wins_witness :
    find? (resolve_conflicts [("app", wOld)] [("app", wNew)]
        "timestamp-wins") "app" =
      if strGe (wNew.ea_tags.CreatedAt.getD "1970-01-01")
          (wOld.ea_tags.CreatedAt.getD "1970-01-01") then some wNew
      else some wOld :=
  timestamp_wins_replaces_iff_ge [("app", wOld)] [("app", wNew)] "app"
    wOld wNew (by decide) (by decide) (by decide)

/-! ## Lemmas about the key set of `resolve_conflicts` -/

theorem mem_keys_resolveStep_of_mem (e : Doc) (s : String) (acc : Doc)
    (kv : String × ResourceEntry) {a : String} (h : a ∈ keys acc) :
    a ∈ keys (resolveStep e s acc kv) := by
  rcases resolveStep_eq_or e s acc kv with h' | h'
  · rw [h']
    exact h
  · rw [h']
    exact (mem_keys_dinsert acc kv.1 a kv.2).mpr (Or.inl h)

theorem mem_keys_resolveStep_elim (e : Doc) (s : String) (acc : Doc)
    (kv : String × ResourceEntry) {a : String}
    (h : a ∈ keys (resolveStep e s acc kv)) : a ∈ keys acc ∨ a = kv.1 := by
  rcases resolveStep_eq_or e s acc kv with h' | h'
  · rw [h'] at h
    exact Or.inl h
  · rw [h'] at h
    exact (mem_keys_dinsert acc kv.1 a kv.2).mp h

theorem head_mem_keys_resolveStep (e : Doc) (s : String) (acc : Doc)
    (kv : String × ResourceEntry)
    (hsub : ∀ x ∈ keys e, x ∈ keys acc) :
    kv.1 ∈ keys (resolveStep e s acc kv) := by
  cases hf : find? e kv.1 with
  | none =>
    rw [resolveStep_none e s acc kv hf]
    exact (mem_keys_dinsert acc kv.1 kv.1 kv.2).mpr (Or.inr rfl)
  | some ev =>
    have hin : kv.1 ∈ keys acc := hsub _ (mem_keys_of_find?_eq_some hf)
    rw [resolveStep_some e s acc kv ev hf]
    split_ifs <;>
      first
        | exact hin
        | exact (mem_keys_dinsert acc kv.1 kv.1 kv.2).mpr (Or.inl hin)

theorem mem_keys_foldl_resolveStep_of_mem (e : Doc) (s : String)
    (rest : Doc) (acc : Doc) {a : String} (h : a ∈ keys acc) :
    a ∈ keys (rest.foldl (resolveStep e s) acc) := by
  induction rest generalizing acc with
  | nil => exact h
  | cons kv t ih =>
    rw [List.foldl_cons]
    exact ih _ (mem_keys_resolveStep_of_mem e s acc kv h)

theorem mem_keys_foldl_resolveStep_elim (e : Doc) (s : String)
    (rest : Doc) (acc : Doc) {a : String}
    (h : a ∈ keys (rest.foldl (resolveStep e s) acc)) :
    a ∈ keys acc ∨ a ∈ keys rest := by
  induction rest generalizing acc with
  | nil => exact Or.inl h
  | cons kv t ih =>
    rw [List.foldl_cons] at h
    rcases ih _ h with h' | h'
    · rcases mem_keys_resolveStep_elim e s acc kv h' with h'' | h''
      · exact Or.inl h''
      · exact Or.inr (by simp [keys_cons, h''])
    · exact Or.inr (by simp [keys_cons, h'])

theorem mem_keys_foldl_resolveStep_of_mem_rest (e : Doc) (s : String)
    (rest : Doc) (acc : Doc) (hsub : ∀ x ∈ keys e, x ∈ keys acc)
    {a : String} (h : a ∈ keys rest) :
    a ∈ keys (rest.foldl (resolveStep e s) acc) := by
  induction rest generalizing acc with
  | nil => simp [keys_nil] at h
  | cons kv t ih =>
    rw [List.foldl_cons]
    rcases (by simpa [keys_cons, List.mem_cons] using h :
        a = kv.1 ∨ a ∈ keys t) with h' | h'
    · subst h'
      exact mem_keys_foldl_resolveStep_of_mem e s t _
        (head_mem_keys_resolveStep e s acc kv hsub)
    · exact ih _
        (fun x hx => mem_keys_resolveStep_of_mem e s acc kv (hsub x hx)) h'

/-- C10.  For every pair of documents and strategy, the key set of
`resolve_conflicts` is the union of the two key sets; keys of the incoming
document absent from the existing one are inserted with the incoming entry,
regardless of strategy, and no key of the existing document is removed. -/
theorem resolve_conflicts_key_union (existing new : Doc) (strategy : String)
    (hN : (keys new).Nodup) :
    (∀ k, k ∈ keys (resolve_conflicts existing new strategy) ↔
      k ∈ keys existing ∨ k ∈ keys new) ∧
    (∀ k nv, k ∉ keys existing → find? new k = some nv →
      find? (resolve_conflicts existing new strategy) k = some nv) := by
  constructor
  · intro k
    constructor
    · intro h
      exact mem_keys_foldl_resolveStep_elim existing strategy new existing h
    · rintro (h | h)
      · exact mem_keys_foldl_resolveStep_of_mem existing strategy new
          existing h
      · exact mem_keys_foldl_resolveStep_of_mem_rest existing strategy new
          existing (fun x hx => hx) h
  · intro k nv hke hn
    obtain ⟨l1, l2, hsplit, h1, h2⟩ := find?_split_of_nodup hN hn
    subst hsplit
    simp only [resolve_conflicts]
    rw [List.foldl_append, List.foldl_cons,
      foldl_resolveStep_not_mem _ _ _ _ _ h2,
      resolveStep_none existing strategy _ (k, nv)
        ((find?_eq_none_iff existing k).mpr hke)]
    exact find?_dinsert_self _ k nv

/-- C10 witness: a key present only in the incoming document is inserted
with the incoming entry, here under the (otherwise branchless)
`fail-on-conflict` strategy string. -/
theorem resolve_conflicts_key_union_witness :
    find? (resolve_conflicts [("app", wManual)] [("other", wAuto)]
        "fail-on-conflict") "other" = some wAuto :=
  (resolve_conflicts_key_union [("app", wManual)] [("other", wAuto)]
    "fail-on-conflict" (by decide)).2 "other" wAuto (by decide) (by decide)

/-! ## Lemmas about `detect_conflicts` -/

theorem detectStep_some (e : Doc) (acc : List Conflict)
    (kv : String × ResourceEntry) (ev : ResourceEntry)
    (hf : find? e kv.1 = some ev) :
    detectStep e acc kv =
      if strTruthy ev.ea_tags.BackstageId &&
          strTruthy kv.2.ea_tags.BackstageId &&
          ev.ea_tags.BackstageId != kv.2.ea_tags.BackstageId then
        acc ++ [.identifierMismatch kv.1 (ev.ea_tags.BackstageId.getD "")
          (kv.2.ea_tags.BackstageId.getD "")]
      else if !(strTruthy ev.ea_tags.BackstageId) &&
          strTruthy kv.2.ea_tags.BackstageId then
        acc ++ [.manualOverwriteAttempt kv.1
          (kv.2.ea_tags.BackstageId.getD "")]
      else acc := by
  unfold detectStep
  rw [hf]

theorem detectStep_none (e : Doc) (acc : List Conflict)
    (kv : String × ResourceEntry) (hf : find? e kv.1 = none) :
    detectStep e acc kv = acc := by
  unfold detectStep
  rw [hf]

theorem detectStep_filter_ne (e : Doc) (acc : List Conflict)
    (kv : String × ResourceEntry) (k : String) (h : kv.1 ≠ k) :
    (detectStep e acc kv).filter (fun c => conflictKey c == k) =
      acc.filter (fun c => conflictKey c == k) := by
  cases hf : find? e kv.1 with
  | none => rw [detectStep_none e acc kv hf]
  | some ev =>
    have hb : (kv.1 == k) = false := by simpa using h
    rw [detectStep_some e acc kv ev hf]
    split_ifs <;> simp [List.filter_append, conflictKey, hb]

theorem foldl_detectStep_not_mem (e : Doc) (rest : Doc)
    (acc : List Conflict) (k : String) (h : k ∉ keys rest) :
    (rest.foldl (detectStep e) acc).filter (fun c => conflictKey c == k) =
      acc.filter (fun c => conflictKey c == k) := by
  induction rest generalizing acc with
  | nil => rfl
  | cons kv t ih =>
    have hk1 : kv.1 ≠ k := fun he => h (by simp [keys_cons, he])
    have hk2 : k ∉ keys t := fun ht => h (by simp [keys_cons, ht])
    rw [List.foldl_cons, ih _ hk2, detectStep_filter_ne e acc kv k hk1]

/-- C4.  Per key, `detect_conflicts` reports exactly one
identifier-mismatch conflict when both entries carry different non-empty
`BackstageId`s, exactly one manual-overwrite-attempt conflict when the
existing entry's identifier is empty and the incoming one's is non-empty,
and no conflict in every other case (including keys present in only one
document). -/
theorem detect_conflicts_per_key (existing new : Doc) (k : String)
    (hN : (keys new).Nodup) :
    (detect_conflicts existing new).filter (fun c => conflictKey c == k) =
      match find? new k, find? existing k with
      | some nv, some ev =>
        if strTruthy ev.ea_tags.BackstageId &&
            strTruthy nv.ea_tags.BackstageId &&
            ev.ea_tags.BackstageId != nv.ea_tags.BackstageId then
          [.identifierMismatch k (ev.ea_tags.BackstageId.getD "")
            (nv.ea_tags.BackstageId.getD "")]
        else if !(strTruthy ev.ea_tags.BackstageId) &&
            strTruthy nv.ea_tags.BackstageId then
          [.manualOverwriteAttempt k (nv.ea_tags.BackstageId.getD "")]
        else []
      | some _, none => []
      | none, _ => [] := by
  cases hn : find? new k with
  | none =>
    have hmem : k ∉ keys new := (find?_eq_none_iff new k).mp hn
    simp only [detect_conflicts]
    rw [foldl_detectStep_not_mem existing new [] k hmem]
    rfl
  | some nv =>
    cases he : find? existing k with
    | none =>
      obtain ⟨l1, l2, hsplit, h1, h2⟩ := find?_split_of_nodup hN hn
      subst hsplit
      simp only [detect_conflicts]
      rw [List.foldl_append, List.foldl_cons,
        foldl_detectStep_not_mem _ _ _ _ h2,
        detectStep_none existing _ (k, nv) he,
        foldl_detectStep_not_mem _ _ _ _ h1]
      rfl
    | some ev =>
      obtain ⟨l1, l2, hsplit, h1, h2⟩ := find?_split_of_nodup hN hn
      subst hsplit
      simp only [detect_conflicts]
      rw [List.foldl_append, List.foldl_cons,
        foldl_detectStep_not_mem _ _ _ _ h2,
        detectStep_some existing _ (k, nv) ev he]
      split_ifs with hc1 hc2 <;>
        rw [← List.nil_append (List.filter _ _)] <;>
        first
          | rw [List.filter_append,
              foldl_detectStep_not_mem _ _ _ _ h1]
            simp [conflictKey]
          | rw [foldl_detectStep_not_mem _ _ _ _ h1]
            rfl

/-- C4 witness: an automation entry colliding with a differently-identified
automation entry yields exactly one identifier-mismatch conflict for that
key. -/
theorem detect_conflicts_per_key_witness :
    (detect_conflicts [("app", wAuto)] [("app", wOld)]).filter
        (fun c => conflictKey c == "app") =
      if strTruthy wAuto.ea_tags.BackstageId &&
          strTruthy wOld.ea_tags.BackstageId &&
          wAuto.ea_tags.BackstageId != wOld.ea_tags.BackstageId then
        [.identifierMismatch "app" (wAuto.ea_tags.BackstageId.getD "")
          (wOld.ea_tags.BackstageId.getD "")]
      else if !(strTruthy wAuto.ea_tags.BackstageId) &&
          strTruthy wOld.ea_tags.BackstageId then
        [.manualOverwriteAttempt "app" (wOld.ea_tags.BackstageId.getD "")]
      else [] :=
  detect_conflicts_per_key [("app", wAuto)] [("app", wOld)] "app" (by decide)

/-! ## Claim theorem: the fail-on-conflict gate in `merge_file` -/

/-- C5.  When `detect_conflicts` reports at least one conflict, `merge_file`
under `fail-on-conflict` fails without resolving or saving anything, while
under every other strategy it resolves and saves the merged document. -/
theorem merge_file_fail_on_conflict_gate (existing_data backstage_data : Doc)
    (h : detect_conflicts existing_data backstage_data ≠ []) :
    merge_file existing_data backstage_data "fail-on-conflict" =
      { success := false, saved := none } ∧
    (∀ strategy, strategy ≠ "fail-on-conflict" →
      merge_file existing_data backstage_data strategy =
        { success := true,
          saved := some
            (resolve_conflicts existing_data backstage_data strategy) }) := by
  have hb : backstage_data ≠ [] := by
    intro hempty
    apply h
    rw [hempty]
    rfl
  have hbe : backstage_data.isEmpty = false := by
    cases backstage_data
    · exact absurd rfl hb
    · rfl
  have hce : (detect_conflicts existing_data backstage_data).isEmpty =
      false := by
    cases hcc : detect_conflicts existing_data backstage_data
    · exact absurd hcc h
    · rfl
  constructor
  · simp [merge_file, hbe, hce]
  · intro strategy hs
    have hsb : (strategy == "fail-on-conflict") = false := by simpa using hs
    simp [merge_file, hbe, hce, hsb]

/-- C5 witness: an identifier mismatch makes `merge_file` fail (and skip
saving) under `fail-on-conflict`, while `backstage-wins` still saves. -/
theorem merge_file_fail_on_conflict_gate_witness :
    merge_file [("app", wAuto)] [("app", wOld)] "fail-on-conflict" =
      { success := false, saved := none } ∧
    merge_file [("app", wAuto)] [("app", wOld)] "backstage-wins" =
      { success := true,
        saved := some
          (resolve_conflicts [("app", wAuto)] [("app", wOld)]
            "backstage-wins") } :=
  ⟨(merge_file_fail_on_conflict_gate [("app", wAuto)] [("app", wOld)]
      (by decide)).1,
   (merge_file_fail_on_conflict_gate [("app", wAuto)] [("app", wOld)]
      (by decide)).2 "backstage-wins" (by decide)⟩

/-! ## Claim theorem: record typing -/

/-- C6.  `_get_record_type` is decided by field presence in precedence
order: `ip_addr` and `fqdn` present gives `HOST` when `allocate_ip` is
truthy and `A` otherwise (even when alias/canonical or network fields are
also present); else `alias` and `canonical` present gives `CNAME`; else a
present `network` gives `NETWORK`; else `UNKNOWN`. -/
theorem record_type_by_field_presence (e : ResourceEntry) :
    (e.hasIpAddr = true → e.hasFqdn = true →
      _get_record_type e = (if e.allocate_ip then "HOST" else "A")) ∧
    (¬(e.hasIpAddr = true ∧ e.hasFqdn = true) → e.hasAlias = true →
      e.hasCanonical = true → _get_record_type e = "CNAME") ∧
    (¬(e.hasIpAddr = true ∧ e.hasFqdn = true) →
      ¬(e.hasAlias = true ∧ e.hasCanonical = true) →
      e.hasNetwork = true → _get_record_type e = "NETWORK") ∧
    (¬(e.hasIpAddr = true ∧ e.hasFqdn = true) →
      ¬(e.hasAlias = true ∧ e.hasCanonical = true) →
      e.hasNetwork = false → _get_record_type e = "UNKNOWN") := by
  obtain ⟨t, i, f, al, a, c, n⟩ := e
  cases i <;> cases f <;> cases al <;> cases a <;> cases c <;> cases n <;>
    simp [_get_record_type]

/-- C6 witness: an entry carrying every field set at once is typed `HOST`
(`ip_addr`/`fqdn` take precedence, `allocate_ip` truthy). -/
theorem record_type_by_field_presence_witness :
    _get_record_type
        { hasIpAddr := true, hasFqdn := true, allocate_ip := true,
          hasAlias := true, hasCanonical := true, hasNetwork := true } =
      (if true then "HOST" else "A") :=
  (record_type_by_field_presence
    { hasIpAddr := true, hasFqdn := true, allocate_ip := true,
      hasAlias := true, hasCanonical := true, hasNetwork := true }).1
    (by decide) (by decide)

/-! ## Lemmas about the registry listing -/

/-- A concrete automation-owned entry with entity `"old-app"`. -/
def sampleEntry : ResourceEntry :=
  { ea_tags :=
    { CreatedBy := some "backstage"
      BackstageId := some "old-app-test-20250901120000"
      BackstageEntity := some "old-app"
      CreatedAt := some "2025-09-01 12:00:00"
      Owner := some "platform-team" } }

/-- The registry built over one document holding only `sampleEntry`. -/
def sampleRegistry : Registry :=
  build_registry [("a-records.yaml", [("old_app_record", sampleEntry)])]

/-- The listed projection of `sampleEntry`. -/
def sampleListed : ListedResource :=
  { backstage_id := "old-app-test-20250901120000"
    entity_name := some "old-app"
    resource_name := "old_app_record"
    source_file := "a-records.yaml"
    owner := some "platform-team"
    created_at := some "2025-09-01 12:00:00"
    record_type := "UNKNOWN" }

theorem listLoop_some_elim (entity_filter : Option String)
    (reg : Registry) (acc out : List ListedResource)
    (h : listLoop entity_filter acc reg = some out) :
    out = acc ++ (reg.filter
      (fun p => listSkip? entity_filter p.2 == some false)).map listedOf := by
  induction reg generalizing acc with
  | nil =>
    have h' : acc = out := Option.some.inj h
    simp [h'.symm]
  | cons p t ih =>
    cases hs : listSkip? entity_filter p.2 with
    | none => simp [listLoop, hs] at h
    | some b =>
      cases b
      · simp only [listLoop, hs] at h
        rw [ih _ h, List.filter_cons]
        simp [hs]
      · simp only [listLoop, hs] at h
        rw [ih _ h, List.filter_cons]
        simp [hs]

theorem listRaw_none_eq (reg : Registry) :
    listRaw reg none = some (reg.map listedOf) := by
  suffices h : ∀ acc,
      listLoop none acc reg = some (acc ++ reg.map listedOf) by
    simpa [listRaw] using h []
  induction reg with
  | nil => intro acc; simp [listLoop]
  | cons p t ih =>
    intro acc
    have hs : listSkip? none p.2 = some false := rfl
    simp [listLoop, hs, ih]

theorem mem_list_none (reg : Registry) (base : List ListedResource)
    (hb : list_backstage_resources reg none = some base)
    (r : ListedResource) : r ∈ base ↔ ∃ p ∈ reg, listedOf p = r := by
  rw [list_backstage_resources, listRaw_none_eq] at hb
  have hb' : List.insertionSort listedLe (reg.map listedOf) = base := by
    simpa using hb
  rw [← hb', (List.perm_insertionSort listedLe _).mem_iff, List.mem_map]

/-- C7.  The two registry query operations filter asymmetrically: when it
returns at all (the source raises `TypeError` on a truthy filter meeting a
record with no stored entity name), `list_backstage_resources` with a filter
keeps exactly the records whose `entity_name` contains the filter as a
substring (every record when the filter is the falsy `""`), while
`find_resources_by_entity` keeps exactly the records whose `entity_name`
equals its argument; concretely, over a registry holding one record with
entity `"old-app"`, `find_resources_by_entity "old-ap"` is empty, while
listing with filter `"old-ap"` returns that record. -/
theorem list_substring_vs_find_exact :
    (∀ (reg : Registry) (f : String) (out base : List ListedResource),
      list_backstage_resources reg (some f) = some out →
      list_backstage_resources reg none = some base →
      ∀ r, r ∈ out ↔ r ∈ base ∧
        (f = "" ∨ ∃ e, r.entity_name = some e ∧ strContains e f = true)) ∧
    (∀ (reg : Registry) (entity_name : String)
      (out base : List ListedResource),
      find_resources_by_entity reg entity_name = some out →
      list_backstage_resources reg none = some base →
      ∀ r, r ∈ out ↔ r ∈ base ∧ r.entity_name = some entity_name) ∧
    (find_resources_by_entity sampleRegistry "old-ap" = some [] ∧
      (list_backstage_resources sampleRegistry (some "old-ap")).map
        (fun resources => resources.map (fun r => r.backstage_id)) =
        some ["old-app-test-20250901120000"] ∧
      (find_resources_by_entity sampleRegistry "old-app").map
        (fun resources => resources.map (fun r => r.backstage_id)) =
        some ["old-app-test-20250901120000"]) := by
  refine ⟨?_, ?_, by decide, by decide, by decide⟩
  · intro reg f out base hout hb r
    rw [mem_list_none reg base hb r]
    rw [list_backstage_resources, listRaw] at hout
    cases hraw : listLoop (some f) [] reg with
    | none =>
      rw [hraw] at hout
      exact absurd hout (by simp)
    | some raw =>
      rw [hraw] at hout
      have hout' : List.insertionSort listedLe raw = out := by
        simpa using hout
      have hrawc := listLoop_some_elim (some f) reg [] raw hraw
      rw [List.nil_append] at hrawc
      have hmem : r ∈ out ↔ r ∈ raw := by
        rw [← hout', (List.perm_insertionSort listedLe _).mem_iff]
      rw [hmem, hrawc, List.mem_map]
      constructor
      · rintro ⟨p, hpf, rfl⟩
        rw [List.mem_filter] at hpf
        obtain ⟨hp, hcond⟩ := hpf
        refine ⟨⟨p, hp, rfl⟩, ?_⟩
        by_cases hf : f = ""
        · exact Or.inl hf
        · right
          have hfe : f.isEmpty = false := by
            cases hfeb : f.isEmpty
            · rfl
            · exact absurd ((String.isEmpty_iff f).mp hfeb) hf
          simp only [listSkip?, hfe, Bool.false_eq_true, if_false] at hcond
          cases he : p.2.entity_name with
          | none => rw [he] at hcond; simp at hcond
          | some e =>
            rw [he] at hcond
            have hc : strContains e f = true := by simpa using hcond
            exact ⟨e, he, hc⟩
      · rintro ⟨⟨p, hp, rfl⟩, hdisj⟩
        refine ⟨p, ?_, rfl⟩
        rw [List.mem_filter]
        refine ⟨hp, ?_⟩
        rcases hdisj with rfl | ⟨e, he, hc⟩
        · have hemp : ("" : String).isEmpty = true := by decide
          simp [listSkip?, hemp]
        · have he' : p.2.entity_name = some e := he
          by_cases hfe : f.isEmpty
          · simp [listSkip?, hfe]
          · simp [listSkip?, hfe, he', hc]
  · intro reg entity_name out base hout hb r
    rw [mem_list_none reg base hb r]
    rw [find_resources_by_entity, hb] at hout
    have hout' : base.filter
        (fun resource => resource.entity_name == some entity_name) = out := by
      simpa using hout
    rw [← hout', List.mem_filter, mem_list_none reg base hb r]
    constructor
    · rintro ⟨hm, hbeq⟩
      exact ⟨hm, beq_iff_eq.mp hbeq⟩
    · rintro ⟨hm, heq⟩
      exact ⟨hm, beq_iff_eq.mpr heq⟩

/-- C7 witness: the exact-match characterization applied to the concrete
one-record registry at entity `"old-app"`. -/
theorem list_substring_vs_find_exact_witness :
    sampleListed ∈ [sampleListed] ↔ sampleListed ∈ [sampleListed] ∧
      sampleListed.entity_name = some "old-app" :=
  list_substring_vs_find_exact.2.1 sampleRegistry "old-app" [sampleListed]
    [sampleListed] (by decide) (by decide) sampleListed

/-! ## Claim theorem: cleanup planning -/

/-- C9.  The cleanup plan holds exactly one item per requested identifier
present in the registry — with the apply-engine address obtained from the
fixed category table joined to the resource key by a dot, `unknown` for an
unrecognised category — while identifiers absent from the registry are
silently dropped, so the plan can be shorter than the request list. -/
theorem cleanup_plan_characterization :
    (∀ (reg : Registry) (ids : List String),
      generate_cleanup_config reg ids =
        ids.filterMap (fun backstage_id =>
          (find? reg backstage_id).map (cleanupItemOf backstage_id))) ∧
    (∀ (reg : Registry) (ids : List String),
      (generate_cleanup_config reg ids).length ≤ ids.length) ∧
    (∀ (backstage_id : String) (resource_info : RegistryRecord),
      (cleanupItemOf backstage_id resource_info).terraform_resource =
        _get_terraform_resource_name resource_info.source_file
          resource_info.resource_name) ∧
    (∀ n, _get_terraform_resource_name "a-records.yaml" n =
      "infoblox_a_record" ++ "." ++ n) ∧
    (∀ n, _get_terraform_resource_name "cname-records.yaml" n =
      "infoblox_cname_record" ++ "." ++ n) ∧
    (∀ n, _get_terraform_resource_name "host-records.yaml" n =
      "infoblox_host_record" ++ "." ++ n) ∧
    (∀ n, _get_terraform_resource_name "networks.yaml" n =
      "infoblox_network" ++ "." ++ n) ∧
    (∀ n, _get_terraform_resource_name "dns-zones.yaml" n =
      "infoblox_zone_auth" ++ "." ++ n) ∧
    (∀ f n, f ≠ "a-records.yaml" → f ≠ "cname-records.yaml" →
      f ≠ "host-records.yaml" → f ≠ "networks.yaml" →
      f ≠ "dns-zones.yaml" →
      _get_terraform_resource_name f n = "unknown" ++ "." ++ n) := by
  have hmain : ∀ (reg : Registry) (ids : List String),
      generate_cleanup_config reg ids =
        ids.filterMap (fun backstage_id =>
          (find? reg backstage_id).map (cleanupItemOf backstage_id)) := by
    intro reg ids
    simp only [generate_cleanup_config]
    suffices h : ∀ acc, ids.foldl (fun acc backstage_id =>
        match find? reg backstage_id with
        | some resource_info =>
          acc ++ [cleanupItemOf backstage_id resource_info]
        | none => acc) acc =
        acc ++ ids.filterMap (fun backstage_id =>
          (find? reg backstage_id).map (cleanupItemOf backstage_id)) by
      simpa using h []
    induction ids with
    | nil => simp
    | cons i t ih =>
      intro acc
      rw [List.foldl_cons]
      cases hf : find? reg i with
      | none =>
        rw [ih, List.filterMap_cons, hf]
        simp
      | some ri =>
        rw [ih, List.filterMap_cons, hf]
        simp
  refine ⟨hmain, ?_, fun _ _ => rfl, fun _ => rfl, fun _ => rfl,
    fun _ => rfl, fun _ => rfl, fun _ => rfl, ?_⟩
  · intro reg ids
    rw [hmain]
    exact List.length_filterMap_le _ _
  · intro f n h1 h2 h3 h4 h5
    simp [_get_terraform_resource_name,
      (show (f == "a-records.yaml") = false by simpa using h1),
      (show (f == "cname-records.yaml") = false by simpa using h2),
      (show (f == "host-records.yaml") = false by simpa using h3),
      (show (f == "networks.yaml") = false by simpa using h4),
      (show (f == "dns-zones.yaml") = false by simpa using h5)]

/-- C9 witness: an unrecognised category maps to the `unknown` engine
resource type. -/
theorem cleanup_plan_characterization_witness :
    _get_terraform_resource_name "extra.yaml" "r1" =
      "unknown" ++ "." ++ "r1" :=
  cleanup_plan_characterization.2.2.2.2.2.2.2.2 "extra.yaml" "r1"
    (by decide) (by decide) (by decide) (by decide) (by decide)

/-! ## The identifier grammar, declaratively -/

/-- The identifier grammar
`^[a-z0-9-]+-(dev|staging|prod)-digit{14}$` with `$` denoting the very end
of the string, for an abstract digit class (instantiated with `Char.isDigit`
for the grammar as claimed and with `isPyDigit` for the language the source
actually accepts): a non-empty run of `[a-z0-9-]` characters, a hyphen, one
of the three environment literals, a hyphen, and exactly 14 digit characters
reaching the end. -/
def matchesIdGrammarWith (digit : Char → Bool) (l : List Char) : Prop :=
  ∃ p env d : List Char,
    l = p ++ '-' :: (env ++ '-' :: d) ∧ p ≠ [] ∧
    (∀ c ∈ p, entityChar c = true) ∧
    (env = "dev".data ∨ env = "staging".data ∨ env = "prod".data) ∧
    d.length = 14 ∧ (∀ c ∈ d, digit c = true)

/-- The claimed grammar `^[a-z0-9-]+-(dev|staging|prod)-\d{14}$` read as
the claim words it: `\d` is an ASCII decimal digit (the 14 digits being "a
`YYYYMMDDHHMMSS` timestamp"), and `$` is the very end of the string. -/
def matchesIdGrammar (l : List Char) : Prop :=
  matchesIdGrammarWith Char.isDigit l

theorem matchEnvTail_sound (digit : Char → Bool) (l env : List Char)
    (h : matchEnvTail digit l env = true) :
    ∃ p d : List Char, l = p ++ '-' :: (env ++ '-' :: d) ∧ p ≠ [] ∧
      (∀ c ∈ p, entityChar c = true) ∧ d.length = 14 ∧
      (∀ c ∈ d, digit c = true) := by
  simp only [matchEnvTail, Bool.and_eq_true, decide_eq_true_eq,
    List.all_eq_true, beq_iff_eq] at h
  obtain ⟨⟨⟨hlen, hent⟩, hmid⟩, hdig⟩ := h
  refine ⟨l.take (l.length - (env.length + 16)),
    (l.drop (l.length - (env.length + 16))).drop (env.length + 2),
    ?_, ?_, hent, ?_, ?_⟩
  · calc l = l.take (l.length - (env.length + 16)) ++
        l.drop (l.length - (env.length + 16)) :=
          (List.take_append_drop _ l).symm
    _ = l.take (l.length - (env.length + 16)) ++
        ((l.drop (l.length - (env.length + 16))).take (env.length + 2) ++
          (l.drop (l.length - (env.length + 16))).drop (env.length + 2)) := by
        rw [List.take_append_drop (env.length + 2)
          (l.drop (l.length - (env.length + 16)))]
    _ = l.take (l.length - (env.length + 16)) ++
        (('-' :: (env ++ ['-'])) ++
          (l.drop (l.length - (env.length + 16))).drop (env.length + 2)) := by
        rw [hmid]
    _ = l.take (l.length - (env.length + 16)) ++ '-' ::
        (env ++ '-' ::
          (l.drop (l.length - (env.length + 16))).drop (env.length + 2)) := by
        simp
  · refine List.length_pos.mp ?_
    rw [List.length_take]
    exact Nat.lt_min.mpr ⟨by omega, by omega⟩
  · rw [List.drop_drop, List.length_drop]
    omega
  · rw [List.drop_drop]
    have harith : l.length - (env.length + 16) + (env.length + 2) =
        l.length - 14 := by omega
    rw [harith]
    exact hdig

theorem matchEnvTail_complete (digit : Char → Bool) (p env d : List Char)
    (hp : p ≠ []) (hent : ∀ c ∈ p, entityChar c = true) (hd : d.length = 14)
    (hdig : ∀ c ∈ d, digit c = true) :
    matchEnvTail digit (p ++ '-' :: (env ++ '-' :: d)) env = true := by
  have hppos : 0 < p.length := List.length_pos.mpr hp
  have hlen : (p ++ '-' :: (env ++ '-' :: d)).length =
      p.length + env.length + 16 := by
    simp [hd]
    omega
  simp only [matchEnvTail, Bool.and_eq_true, decide_eq_true_eq,
    List.all_eq_true, beq_iff_eq]
  refine ⟨⟨⟨by omega, ?_⟩, ?_⟩, ?_⟩
  · rw [show (p ++ '-' :: (env ++ '-' :: d)).length - (env.length + 16) =
      p.length by omega]
    rw [List.take_left]
    exact hent
  · rw [show (p ++ '-' :: (env ++ '-' :: d)).length - (env.length + 16) =
      p.length by omega]
    rw [List.drop_left]
    rw [show env.length + 2 = (env.length + 1) + 1 from rfl,
      List.take_succ_cons]
    rw [show env.length + 1 = env.length + 1 from rfl, List.take_append 1]
    simp
  · rw [show (p ++ '-' :: (env ++ '-' :: d)).length - 14 =
      p.length + (env.length + 2) by omega]
    have hsplit : p ++ '-' :: (env ++ '-' :: d) =
        (p ++ '-' :: (env ++ ['-'])) ++ d := by
      simp
    rw [hsplit, List.drop_left'
      (by simp [Nat.add_comm, Nat.add_assoc, Nat.add_left_comm])]
    exact hdig

theorem bodyMatch_iff (digit : Char → Bool) (l : List Char) :
    bodyMatch digit l = true ↔ matchesIdGrammarWith digit l := by
  constructor
  · intro h
    rw [bodyMatch, List.any_eq_true] at h
    obtain ⟨env, henv, hm⟩ := h
    obtain ⟨p, d, heq, hp, hent, hd, hdig⟩ := matchEnvTail_sound digit l env hm
    exact ⟨p, env, d, heq, hp, hent, by simpa [idEnvs] using henv, hd, hdig⟩
  · rintro ⟨p, env, d, rfl, hp, hent, henv, hd, hdig⟩
    rw [bodyMatch, List.any_eq_true]
    refine ⟨env, ?_, matchEnvTail_complete digit p env d hp hent hd hdig⟩
    rcases henv with h | h | h <;> simp [idEnvs, h]

/-! ## Claim theorems: identifier validation -/

/-- C8 counterexample: the validator accepts two identifiers that the
claimed grammar (ASCII `\d`, `$` the end of the string) rejects — a valid
identifier followed by a single trailing newline (the host regex engine's
`$` matches just before it), and an identifier whose 14 timestamp characters
are Arabic-Indic digits (the host regex engine's `\d` is the Unicode Nd
class). -/
theorem validate_accepts_ids_outside_claimed_grammar :
    (validate_backstage_id_format "my-app-dev-20250909120000\n" = true ∧
      ¬ matchesIdGrammar "my-app-dev-20250909120000\n".data) ∧
    (validate_backstage_id_format "my-app-dev-٠١٢٣٤٥٦٧٨٩٠١٢٣" = true ∧
      ¬ matchesIdGrammar "my-app-dev-٠١٢٣٤٥٦٧٨٩٠١٢٣".data) := by
  constructor
  · refine ⟨by decide, fun h => ?_⟩
    have hb := (bodyMatch_iff Char.isDigit
      "my-app-dev-20250909120000\n".data).mpr h
    have hf : bodyMatch Char.isDigit
        "my-app-dev-20250909120000\n".data = false := by
      decide
    rw [hf] at hb
    exact Bool.false_ne_true hb
  · refine ⟨by decide, fun h => ?_⟩
    have hb := (bodyMatch_iff Char.isDigit
      "my-app-dev-٠١٢٣٤٥٦٧٨٩٠١٢٣".data).mpr h
    have hf : bodyMatch Char.isDigit
        "my-app-dev-٠١٢٣٤٥٦٧٨٩٠١٢٣".data = false := by
      decide
    rw [hf] at hb
    exact Bool.false_ne_true hb

/-- C8 (amended).  `validate_backstage_id_format` returns true iff the
string matches the grammar `^[a-z0-9-]+-(dev|staging|prod)-\d{14}$` under
the source's host regex semantics — `\d` any Unicode decimal digit
(category Nd, a superset of the claimed ASCII digits) — either exactly or
after removing a single trailing newline (the host engine's `$` semantics);
every identifier of the claimed ASCII grammar is still accepted, and the
four concrete vectors of the claim all hold. -/
theorem validate_iff_unicode_grammar_mod_trailing_newline :
    (∀ s : String, validate_backstage_id_format s = true ↔
      (matchesIdGrammarWith isPyDigit s.data ∨
        ∃ t : List Char, s.data = t ++ ['\n'] ∧
          matchesIdGrammarWith isPyDigit t)) ∧
    (∀ l : List Char, matchesIdGrammar l → matchesIdGrammarWith isPyDigit l) ∧
    validate_backstage_id_format "my-app-dev-20250909120000" = true ∧
    validate_backstage_id_format "my-app-dev-2025090912000" = false ∧
    validate_backstage_id_format "MyApp-dev-20250909120000" = false ∧
    validate_backstage_id_format "my-app-invalid-20250909120000" = false := by
  refine ⟨?_, ?_, by decide, by decide, by decide, by decide⟩
  · intro s
    rw [validate_backstage_id_format, Bool.or_eq_true, Bool.and_eq_true,
      bodyMatch_iff, bodyMatch_iff, beq_iff_eq]
    constructor
    · rintro (h | ⟨hget, hgram⟩)
      · exact Or.inl h
      · refine Or.inr ⟨s.data.dropLast, ?_, hgram⟩
        have hne : s.data ≠ [] := by
          intro h0
          rw [h0] at hget
          simp at hget
        have hlast := List.getLast?_eq_getLast s.data hne
        rw [hlast] at hget
        have hc : s.data.getLast hne = '\n' := Option.some.inj hget
        conv_lhs => rw [← List.dropLast_append_getLast hne]
        rw [hc]
    · rintro (h | ⟨t, heq, hgram⟩)
      · exact Or.inl h
      · refine Or.inr ⟨?_, ?_⟩
        · rw [heq, List.getLast?_concat]
        · rw [heq, List.dropLast_concat]
          exact hgram
  · rintro l ⟨p, env, d, rfl, hp, hent, henv, hd, hdig⟩
    refine ⟨p, env, d, rfl, hp, hent, henv, hd, fun c hc => ?_⟩
    have hcd := hdig c hc
    simp only [Char.isDigit, Bool.and_eq_true, decide_eq_true_eq, ge_iff_le,
      UInt32.le_def] at hcd
    simp only [isPyDigit, ndRanges, List.any_eq_true, List.mem_cons,
      Bool.and_eq_true, decide_eq_true_eq]
    exact ⟨(0x30, 0x39), Or.inl rfl, hcd.1, hcd.2⟩

end InfobloxAutomation
